import Mathlib

/-!
Verification of the anonymiser strategy compiler, schema cross-validator and
parser state machine, shallowly embedded from `src/parsers/strategies.rs` and
`src/parsers/state.rs`.  Rust `HashMap`s are modelled as association lists with
the `HashMap::insert` replace-and-return-previous semantics; `Vec::push` is
modelled as appending at the end of a list.
-/

/-- Sensitivity classification of a column (strategy_structs.rs, used throughout
strategies.rs). -/
inductive DataCategory where
  | General
  | PotentialPii
  | Pii
  | CommerciallySensitive
  | Unknown
deriving DecidableEq

/-- Transformer kinds.  The spec describes the closed set Identity, Scramble,
ScrambleBlank, Error plus format-specific sanitiser kinds; the latter are
collapsed into one representative constructor since strategy_structs.rs is not
among the sources and strategies.rs only ever compares against the named four. -/
inductive TransformerType where
  | Identity
  | Scramble
  | ScrambleBlank
  | Error
  | StructuredIdentifierSanitiser
deriving DecidableEq

/-- A transformer kind with its optional arguments. -/
structure Transformer where
  name : TransformerType
  args : Option (List String)
deriving DecidableEq

/-- A raw column entry of the strategy document (strategy_structs.rs). -/
structure ColumnInFile where
  data_category : DataCategory
  description : String
  name : String
  transformer : Transformer
deriving DecidableEq

/-- A compiled column policy (strategy_structs.rs). -/
structure ColumnInfo where
  data_category : DataCategory
  name : String
  transformer : Transformer
deriving DecidableEq

/-- A raw table entry of the strategy document (strategy_structs.rs). -/
structure StrategyInFile where
  table_name : String
  description : String
  truncate : Bool
  columns : List ColumnInFile
deriving DecidableEq

/-- The override flags consumed by the compiler (strategy_structs.rs). -/
structure TransformerOverrides where
  allow_potential_pii : Bool
  allow_commercially_sensitive : Bool
  scramble_blank : Bool
deriving DecidableEq

/-- A qualified column used for error reporting and set comparison
(strategy_structs.rs). -/
structure SimpleColumn where
  table_name : String
  column_name : String
deriving DecidableEq

/-- Rust `HashMap::insert` on an association list: replaces the value at the key
when present and returns the previous value, otherwise appends the new binding. -/
def hmInsert {α β : Type} [DecidableEq α] : List (α × β) → α → β → List (α × β) × Option β
  | [], k, v => ([(k, v)], none)
  | (k₀, v₀) :: rest, k, v =>
    if k₀ = k then ((k, v) :: rest, some v₀)
    else
      let r := hmInsert rest k v
      ((k₀, v₀) :: r.1, r.2)

/-- Rust `HashMap::get` on an association list. -/
def hmGet {α β : Type} [DecidableEq α] : List (α × β) → α → Option β
  | [], _ => none
  | (k₀, v₀) :: rest, k => if k₀ = k then some v₀ else hmGet rest k

/-- Rust `collect::<HashMap<_, _>>()` from a list of pairs: later pairs with the
same key overwrite earlier ones. -/
def hmOfList {α β : Type} [DecidableEq α] (l : List (α × β)) : List (α × β) :=
  l.foldl (fun m kv => (hmInsert m kv.1 kv.2).1) []

/-- The five batched error buckets of policy compilation (strategy_errors.rs is
not among the sources; the buckets and their meaning are fixed by their use in
strategies.rs and by the spec's Validation Error Batch). -/
structure ValidationErrors where
  unanonymised_pii : List SimpleColumn
  unknown_data_categories : List SimpleColumn
  error_transformer_types : List SimpleColumn
  duplicate_columns : List SimpleColumn
  duplicate_tables : List String
deriving DecidableEq

def ValidationErrors.new : ValidationErrors := ⟨[], [], [], [], []⟩

/-- Modelled from the spec: `ValidationErrors::is_empty` lives in
strategy_errors.rs, which is not among the sources; per the spec compilation
succeeds only if every error bucket is empty, so `is_empty` holds iff all five
buckets are empty. -/
def ValidationErrors.is_empty (e : ValidationErrors) : Bool :=
  e.unanonymised_pii.isEmpty && e.unknown_data_categories.isEmpty &&
    e.error_transformer_types.isEmpty && e.duplicate_columns.isEmpty &&
    e.duplicate_tables.isEmpty

/-- strategies.rs `create_simple_column`. -/
def create_simple_column (column_name : String) (table_name : String) : SimpleColumn :=
  ⟨table_name, column_name⟩

/-- strategies.rs `apply_transformer_overrides` (lines 183-207): a Rust `match`
on the data category whose guarded arms are checked top to bottom. -/
def apply_transformer_overrides (data_category : DataCategory)
    (overrides : TransformerOverrides) (transformer : Transformer) : Transformer :=
  if data_category = DataCategory.PotentialPii ∧ overrides.allow_potential_pii then
    { name := TransformerType.Identity, args := none }
  else if data_category = DataCategory.CommerciallySensitive ∧
      overrides.allow_commercially_sensitive then
    { name := TransformerType.Identity, args := none }
  else if overrides.scramble_blank ∧ transformer.name = TransformerType.Scramble then
    { name := TransformerType.ScrambleBlank, args := none }
  else transformer

/-- strategies.rs `transformer` (lines 209-211). -/
def transformer (column : ColumnInFile) (overrides : TransformerOverrides) : Transformer :=
  apply_transformer_overrides column.data_category overrides column.transformer

/-- A table's compiled policy (strategies.rs `TableStrategy`). -/
inductive TableStrategy where
  | Columns (columns : List (String × ColumnInfo))
  | Truncate
deriving DecidableEq

/-- strategies.rs `TableStrategy::to_columns`.  The source panics on `Truncate`;
the function is only reached behind the Columns-only partition in
`validate_against_db`, so the `Truncate` case is modelled as the empty map. -/
def TableStrategy.to_columns : TableStrategy → List (String × ColumnInfo)
  | TableStrategy.Columns c => c
  | TableStrategy.Truncate => []

/-- The compiled policy set (strategies.rs `Strategies`). -/
structure Strategies where
  tables : List (String × TableStrategy)
deriving DecidableEq

def Strategies.new : Strategies := ⟨[]⟩

/-- strategies.rs `Strategies::insert` (lines 96-103): always wraps the columns
in `TableStrategy::Columns` and returns the replaced previous strategy, if any. -/
def Strategies.insert (s : Strategies) (table_name : String)
    (columns : List (String × ColumnInfo)) : Strategies × Option TableStrategy :=
  let r := hmInsert s.tables table_name (TableStrategy.Columns columns)
  (⟨r.1⟩, r.2)

/-- strategies.rs `Strategies::for_table`. -/
def Strategies.for_table (s : Strategies) (table_name : String) : Option TableStrategy :=
  hmGet s.tables table_name

/-- The three per-column error checks of `from_strategies_in_file`
(strategies.rs lines 44-61), in source order. -/
def checkColumn (table_name : String) (column : ColumnInFile)
    (errors : ValidationErrors) : ValidationErrors :=
  let e₁ :=
    if (column.data_category = DataCategory.PotentialPii ∨
        column.data_category = DataCategory.Pii) ∧
        column.transformer.name = TransformerType.Identity then
      { errors with unanonymised_pii :=
          errors.unanonymised_pii ++ [create_simple_column column.name table_name] }
    else errors
  let e₂ :=
    if column.data_category = DataCategory.Unknown then
      { e₁ with unknown_data_categories :=
          e₁.unknown_data_categories ++ [create_simple_column column.name table_name] }
    else e₁
  if column.transformer.name = TransformerType.Error then
    { e₂ with error_transformer_types :=
        e₂.error_transformer_types ++ [create_simple_column column.name table_name] }
  else e₂

/-- One iteration of the inner column loop of `from_strategies_in_file`
(strategies.rs lines 43-76): run the error checks, insert the resolved
`ColumnInfo`, and report a duplicate column when the insert replaced one. -/
def processColumn (table_name : String) (overrides : TransformerOverrides)
    (acc : List (String × ColumnInfo) × ValidationErrors) (column : ColumnInFile) :
    List (String × ColumnInfo) × ValidationErrors :=
  let errors := checkColumn table_name column acc.2
  let ins := hmInsert acc.1 column.name
    { data_category := column.data_category, name := column.name,
      transformer := transformer column overrides }
  match ins.2 with
  | some dupe =>
      (ins.1, { errors with duplicate_columns :=
          errors.duplicate_columns ++ [create_simple_column dupe.name table_name] })
  | none => (ins.1, errors)

/-- One iteration of the outer strategy loop of `from_strategies_in_file`
(strategies.rs lines 41-82). -/
def processStrategy (overrides : TransformerOverrides)
    (acc : Strategies × ValidationErrors) (strategy : StrategyInFile) :
    Strategies × ValidationErrors :=
  let folded := strategy.columns.foldl (processColumn strategy.table_name overrides) ([], acc.2)
  let ins := acc.1.insert strategy.table_name folded.1
  match ins.2 with
  | some _ =>
      (ins.1, { folded.2 with duplicate_tables :=
          folded.2.duplicate_tables ++ [strategy.table_name] })
  | none => (ins.1, folded.2)

/-- The accumulation phase of `from_strategies_in_file` (strategies.rs lines
38-82): the compiled map together with every error discovered. -/
def from_strategies_in_file_impl (strategies_in_file : List StrategyInFile)
    (transformer_overrides : TransformerOverrides) : Strategies × ValidationErrors :=
  strategies_in_file.foldl (processStrategy transformer_overrides)
    (Strategies.new, ValidationErrors.new)

/-- strategies.rs `Strategies::from_strategies_in_file` (lines 34-90). -/
def from_strategies_in_file (strategies_in_file : List StrategyInFile)
    (transformer_overrides : TransformerOverrides) : Except ValidationErrors Strategies :=
  let r := from_strategies_in_file_impl strategies_in_file transformer_overrides
  if ValidationErrors.is_empty r.2 then Except.ok r.1 else Except.error r.2

/-- The two batched buckets of schema cross-validation (strategy_errors.rs is
not among the sources; the buckets are fixed by their use in
`validate_against_db` and by the spec's Schema Diff). -/
structure DbErrors where
  missing_from_strategy_file : List SimpleColumn
  missing_from_db : List SimpleColumn
deriving DecidableEq

/-- Modelled from the spec: `DbErrors::is_empty` lives in strategy_errors.rs,
which is not among the sources; per the spec schema validation succeeds iff
both difference lists are empty. -/
def DbErrors.is_empty (e : DbErrors) : Bool :=
  e.missing_from_strategy_file.isEmpty && e.missing_from_db.isEmpty

/-- The derived lexicographic order on `SimpleColumn` used by Rust `sort`:
table name first, then column name. -/
def scLE (a b : SimpleColumn) : Prop :=
  a.table_name < b.table_name ∨
    (a.table_name = b.table_name ∧ a.column_name ≤ b.column_name)

instance : DecidableRel scLE := fun a b => by
  unfold scLE
  infer_instance

instance : IsTotal SimpleColumn scLE where
  total a b := by
    rcases lt_trichotomy a.table_name b.table_name with h | h | h
    · exact Or.inl (Or.inl h)
    · rcases le_total a.column_name b.column_name with h₂ | h₂
      · exact Or.inl (Or.inr ⟨h, h₂⟩)
      · exact Or.inr (Or.inr ⟨h.symm, h₂⟩)
    · exact Or.inr (Or.inl h)

instance : IsTrans SimpleColumn scLE where
  trans a b c hab hbc := by
    rcases hab with h₁ | ⟨h₁, h₁c⟩ <;> rcases hbc with h₂ | ⟨h₂, h₂c⟩
    · exact Or.inl (h₁.trans h₂)
    · exact Or.inl (h₂ ▸ h₁)
    · exact Or.inl (h₁ ▸ h₂)
    · exact Or.inr ⟨h₁.trans h₂, h₁c.trans h₂c⟩

/-- Whether a table strategy carries per-column policy (the partition predicate
of `validate_against_db`, strategies.rs lines 110-119). -/
def isColumnsStrategy : TableStrategy → Bool
  | TableStrategy.Columns _ => true
  | TableStrategy.Truncate => false

/-- The qualified columns of the policy set counting only column-bearing
tables, as a set (`columns_from_strategy_file` in `validate_against_db`,
strategies.rs lines 121-129; Rust collects into a `HashSet`, modelled by
deduplication). -/
def columns_from_strategy_file (s : Strategies) : List SimpleColumn :=
  ((s.tables.filter fun p => isColumnsStrategy p.2).flatMap fun p =>
    p.2.to_columns.map fun cp => create_simple_column cp.1 p.1).dedup

/-- strategies.rs `Strategies::validate_against_db` (lines 106-151).  The live
column set input is a `HashSet`, modelled by deduplicating the input list. -/
def validate_against_db (s : Strategies) (columns_from_db : List SimpleColumn) :
    Except DbErrors Unit :=
  let dbSet := columns_from_db.dedup
  let stratSet := columns_from_strategy_file s
  let errors : DbErrors :=
    { missing_from_strategy_file := dbSet.filter fun x => decide (x ∉ stratSet)
      missing_from_db := stratSet.filter fun x => decide (x ∉ dbSet) }
  if DbErrors.is_empty errors then Except.ok ()
  else
    Except.error
      { missing_from_strategy_file :=
          List.insertionSort scLE errors.missing_from_strategy_file
        missing_from_db := List.insertionSort scLE errors.missing_from_db }

/-- A column of a table declaration (types.rs is not among the sources; the
fields `name` and `data_type` are fixed by their use in state.rs line 65). -/
structure Column where
  name : String
  data_type : String
deriving DecidableEq

/-- Modelled from the spec: `CurrentTableTransforms` lives in copy_row.rs,
which is not among the sources; per the spec the row-block position carries the
bound transformers of the active table.  state.rs never inspects its contents. -/
structure CurrentTableTransforms where
  table_name : String
  transforms : Option (List ColumnInfo)
deriving DecidableEq

/-- state.rs `Types` (lines 5-25): the Type Registry. -/
structure Types where
  types : List (String × List (String × String))
deriving DecidableEq

/-- state.rs `Types::insert` (lines 15-17): `HashMap::insert`, replacing any
previous column map for the table. -/
def Types.insert (t : Types) (table_name : String)
    (thing : List (String × String)) : Types :=
  ⟨(hmInsert t.types table_name thing).1⟩

/-- state.rs `Types::lookup` (lines 19-24). -/
def Types.lookup (t : Types) (table_name : String) (column_name : String) :
    Option String :=
  (hmGet t.types table_name).bind fun table => hmGet table column_name

/-- state.rs `Position` (lines 32-42). -/
inductive Position where
  | Normal
  | InCopy (current_table : CurrentTableTransforms)
  | InCreateTable (table_name : String) (types : List Column)
deriving DecidableEq

/-- state.rs `State` (lines 27-30). -/
structure State where
  position : Position
  types : Types
deriving DecidableEq

/-- state.rs `State::new` (lines 45-50). -/
def State.new : State := ⟨Position.Normal, ⟨[]⟩⟩

/-- state.rs `State::update_position` (lines 52-71): only the transition from
`InCreateTable` to `Normal` touches the Type Registry, committing the
accumulated columns reduced to a name-to-type map under the table's name. -/
def State.update_position (s : State) (new_position : Position) : State :=
  match s.position, new_position with
  | Position.InCreateTable table_name table_types, Position.Normal =>
      { position := new_position,
        types := s.types.insert table_name
          (hmOfList (table_types.map fun c => (c.name, c.data_type))) }
  | _, _ => { s with position := new_position }

/-- Modelled from the spec: a column "demoted to Identity by an explicit
override" is one whose category override (allow_potential_pii on PotentialPii,
or allow_commercially_sensitive on CommerciallySensitive) applies and whose
declared transformer was not already Identity. -/
def demotedToIdentityByOverride (column : ColumnInFile)
    (overrides : TransformerOverrides) : Prop :=
  ((column.data_category = DataCategory.PotentialPii ∧ overrides.allow_potential_pii) ∨
    (column.data_category = DataCategory.CommerciallySensitive ∧
      overrides.allow_commercially_sensitive)) ∧
    column.transformer.name ≠ TransformerType.Identity

instance (column : ColumnInFile) (overrides : TransformerOverrides) :
    Decidable (demotedToIdentityByOverride column overrides) := by
  unfold demotedToIdentityByOverride
  infer_instance

/-- C1: override resolution follows the exact priority order: PotentialPii with
allow_potential_pii forces Identity; else CommerciallySensitive with
allow_commercially_sensitive forces Identity; else a declared Scramble with
scramble_blank becomes ScrambleBlank; else the declared transformer is kept
unchanged.  In particular a PotentialPii column declared Scramble under
allow_potential_pii and scramble_blank resolves to Identity. -/
theorem C1_override_priority (dc : DataCategory) (o : TransformerOverrides)
    (t : Transformer) :
    (dc = DataCategory.PotentialPii → o.allow_potential_pii = true →
      apply_transformer_overrides dc o t =
        { name := TransformerType.Identity, args := none })
  ∧ (¬(dc = DataCategory.PotentialPii ∧ o.allow_potential_pii = true) →
      dc = DataCategory.CommerciallySensitive → o.allow_commercially_sensitive = true →
      apply_transformer_overrides dc o t =
        { name := TransformerType.Identity, args := none })
  ∧ (¬(dc = DataCategory.PotentialPii ∧ o.allow_potential_pii = true) →
      ¬(dc = DataCategory.CommerciallySensitive ∧ o.allow_commercially_sensitive = true) →
      t.name = TransformerType.Scramble → o.scramble_blank = true →
      apply_transformer_overrides dc o t =
        { name := TransformerType.ScrambleBlank, args := none })
  ∧ (¬(dc = DataCategory.PotentialPii ∧ o.allow_potential_pii = true) →
      ¬(dc = DataCategory.CommerciallySensitive ∧ o.allow_commercially_sensitive = true) →
      ¬(t.name = TransformerType.Scramble ∧ o.scramble_blank = true) →
      apply_transformer_overrides dc o t = t)
  ∧ (∀ b : Bool,
      apply_transformer_overrides DataCategory.PotentialPii ⟨true, b, true⟩
        ⟨TransformerType.Scramble, none⟩ =
        { name := TransformerType.Identity, args := none }) := by
  refine ⟨?_, ?_, ?_, ?_, ?_⟩
  · intro h₁ h₂
    simp [apply_transformer_overrides, h₁, h₂]
  · intro hn h₁ h₂
    simp only [apply_transformer_overrides]
    rw [if_neg hn, if_pos ⟨h₁, h₂⟩]
  · intro hn₁ hn₂ ht hs
    simp only [apply_transformer_overrides]
    rw [if_neg hn₁, if_neg hn₂, if_pos ⟨hs, ht⟩]
  · intro hn₁ hn₂ hn₃
    simp only [apply_transformer_overrides]
    rw [if_neg hn₁, if_neg hn₂, if_neg fun h => hn₃ ⟨h.2, h.1⟩]
  · intro b
    simp [apply_transformer_overrides]

theorem C1_override_priority_witness :
    apply_transformer_overrides DataCategory.PotentialPii ⟨true, false, true⟩
      ⟨TransformerType.Scramble, none⟩ =
      { name := TransformerType.Identity, args := none } :=
  (C1_override_priority DataCategory.PotentialPii ⟨true, false, true⟩
    ⟨TransformerType.Scramble, none⟩).1 rfl rfl

/-- C7: override resolution is idempotent: for every data category, override
flags and transformer, applying `apply_transformer_overrides` twice yields the
same transformer as applying it once. -/
theorem C7_override_idempotent (dc : DataCategory) (o : TransformerOverrides)
    (t : Transformer) :
    apply_transformer_overrides dc o (apply_transformer_overrides dc o t) =
      apply_transformer_overrides dc o t := by
  by_cases h₁ : dc = DataCategory.PotentialPii ∧ o.allow_potential_pii = true
  · simp [apply_transformer_overrides, h₁]
  · by_cases h₂ : dc = DataCategory.CommerciallySensitive ∧
        o.allow_commercially_sensitive = true
    · simp [apply_transformer_overrides, h₁, h₂]
    · by_cases h₃ : o.scramble_blank = true ∧ t.name = TransformerType.Scramble
      · simp [apply_transformer_overrides, h₁, h₂, h₃]
      · simp [apply_transformer_overrides, h₁, h₂, h₃]

theorem hmGet_hmInsert {α β : Type} [DecidableEq α] (m : List (α × β)) (k k' : α) (v : β) :
    hmGet (hmInsert m k v).1 k' = if k = k' then some v else hmGet m k' := by
  induction m with
  | nil => by_cases h₁ : k = k' <;> simp [hmInsert, hmGet, h₁]
  | cons hd tl ih =>
    obtain ⟨k₀, v₀⟩ := hd
    by_cases h₀ : k₀ = k
    · subst h₀
      by_cases h₁ : k₀ = k' <;> simp [hmInsert, hmGet, h₁]
    · by_cases h₂ : k = k'
      · subst h₂
        simp [hmInsert, hmGet, h₀, ih]
      · by_cases h₁ : k₀ = k'
        · subst h₁
          simp [hmInsert, hmGet, h₀, h₂]
        · simp [hmInsert, hmGet, h₀, h₁, h₂, ih]

theorem mem_hmInsert {α β : Type} [DecidableEq α] (m : List (α × β)) (k : α) (v : β)
    (p : α × β) (hp : p ∈ (hmInsert m k v).1) : p ∈ m ∨ p = (k, v) := by
  induction m with
  | nil =>
    simp [hmInsert] at hp
    exact Or.inr hp
  | cons hd tl ih =>
    obtain ⟨k₀, v₀⟩ := hd
    by_cases h₀ : k₀ = k
    · subst h₀
      simp [hmInsert] at hp
      rcases hp with h | h
      · exact Or.inr (by simp [h])
      · exact Or.inl (List.mem_cons_of_mem _ h)
    · simp [hmInsert, h₀] at hp
      rcases hp with h | h
      · exact Or.inl (by simp [h])
      · rcases ih h with h' | h'
        · exact Or.inl (List.mem_cons_of_mem _ h')
        · exact Or.inr h'

/-- C8: the only position transition with a Type Registry side effect is
`InCreateTable` to `Normal`, which commits the accumulated columns reduced to a
name-to-type map under the table's name; every other call to `update_position`
leaves the registry unchanged; and after committing the declaration of table
"people" with columns [("id","bigint"), ("dob","date")], a lookup of
("people","dob") returns "date". -/
theorem C8_update_position_frame (s : State) (p : Position) :
    ((s.update_position p).position = p)
  ∧ (∀ tn tt, s.position = Position.InCreateTable tn tt → p = Position.Normal →
      (s.update_position p).types =
        s.types.insert tn (hmOfList (tt.map fun c => (c.name, c.data_type))))
  ∧ ((∀ tn tt, ¬(s.position = Position.InCreateTable tn tt ∧ p = Position.Normal)) →
      (s.update_position p).types = s.types)
  ∧ (((State.mk (Position.InCreateTable "people"
        [⟨"id", "bigint"⟩, ⟨"dob", "date"⟩]) ⟨[]⟩).update_position
          Position.Normal).types.lookup "people" "dob" = some "date") := by
  obtain ⟨pos, tys⟩ := s
  refine ⟨?_, ?_, ?_, ?_⟩
  · cases pos <;> cases p <;> rfl
  · intro tn tt h hp
    cases h
    cases hp
    rfl
  · intro h
    cases pos <;> cases p <;>
      first
        | rfl
        | exact absurd ⟨rfl, rfl⟩ (h _ _)
  · rfl

theorem C8_update_position_frame_witness :
    (((State.mk (Position.InCreateTable "people"
        [⟨"id", "bigint"⟩, ⟨"dob", "date"⟩]) ⟨[]⟩).update_position Position.Normal).types =
      (Types.mk []).insert "people"
        (hmOfList ([⟨"id", "bigint"⟩, ⟨"dob", "date"⟩].map
          fun c => (Column.name c, Column.data_type c))))
  ∧ (((State.mk (Position.InCopy ⟨"t", none⟩) ⟨[]⟩).update_position
        Position.Normal).types = Types.mk []) := by
  constructor
  · exact (C8_update_position_frame _ _).2.1 "people" _ rfl rfl
  · exact (C8_update_position_frame _ _).2.2.1
      (fun tn tt h => Position.noConfusion h.1)

/-- C9 counterexample: the Type Registry is not append-only across every
sequence of operations.  Committing table "people" with column ("dob","date"),
then committing "people" again with a different column list, replaces the whole
column map: the previously committed entry ("people","dob") is gone. -/
theorem C9_type_registry_counterexample :
    (((State.new.update_position
        (Position.InCreateTable "people" [⟨"dob", "date"⟩])).update_position
          Position.Normal).types.lookup "people" "dob" = some "date")
  ∧ (((((State.new.update_position
        (Position.InCreateTable "people" [⟨"dob", "date"⟩])).update_position
          Position.Normal).update_position
            (Position.InCreateTable "people" [⟨"id", "bigint"⟩])).update_position
              Position.Normal).types.lookup "people" "dob" = none) := by
  exact ⟨rfl, rfl⟩

/-- C9 amended: a committed (table, column) to type entry persists across every
operation except a later `InCreateTable` to `Normal` commit for the same table
name, which replaces that table's whole column map; and a lookup miss returns
`none` (at either the table or the column level) rather than failing. -/
theorem C9_type_registry_persistence :
    (∀ (s : State) (p : Position) (t c ty : String),
      s.types.lookup t c = some ty →
      (∀ tt, ¬(s.position = Position.InCreateTable t tt ∧ p = Position.Normal)) →
      (s.update_position p).types.lookup t c = some ty)
  ∧ (∀ (tys : Types) (t c : String), hmGet tys.types t = none → tys.lookup t c = none)
  ∧ (∀ (tys : Types) (t c : String) (m : List (String × String)),
      hmGet tys.types t = some m → hmGet m c = none → tys.lookup t c = none) := by
  refine ⟨?_, ?_, ?_⟩
  · intro s p t c ty hl hnc
    obtain ⟨pos, tys⟩ := s
    cases pos with
    | Normal => cases p <;> exact hl
    | InCopy ct => cases p <;> exact hl
    | InCreateTable tn tt =>
      cases p with
      | Normal =>
        have hne : tn ≠ t := by
          intro he
          exact hnc tt ⟨by rw [he], rfl⟩
        show Types.lookup (Types.insert tys tn _) t c = some ty
        rw [Types.lookup, Types.insert, hmGet_hmInsert, if_neg hne]
        exact hl
      | InCopy ct => exact hl
      | InCreateTable tn₂ tt₂ => exact hl
  · intro tys t c h
    rw [Types.lookup, h]
    rfl
  · intro tys t c m h hm
    rw [Types.lookup, h]
    exact hm

theorem C9_type_registry_persistence_witness :
    ((State.mk Position.Normal ⟨[("people", [("dob", "date")])]⟩).update_position
        Position.Normal).types.lookup "people" "dob" = some "date" :=
  C9_type_registry_persistence.1 (State.mk Position.Normal ⟨[("people", [("dob", "date")])]⟩)
    Position.Normal "people" "dob" "date" rfl (fun _ h => Position.noConfusion h.1)

theorem checkColumn_unanonymised (t : String) (c : ColumnInFile) (e : ValidationErrors) :
    (checkColumn t c e).unanonymised_pii =
      if (c.data_category = DataCategory.PotentialPii ∨
          c.data_category = DataCategory.Pii) ∧
          c.transformer.name = TransformerType.Identity then
        e.unanonymised_pii ++ [create_simple_column c.name t]
      else e.unanonymised_pii := by
  simp only [checkColumn]
  split_ifs <;> rfl

theorem checkColumn_unknown (t : String) (c : ColumnInFile) (e : ValidationErrors) :
    (checkColumn t c e).unknown_data_categories =
      if c.data_category = DataCategory.Unknown then
        e.unknown_data_categories ++ [create_simple_column c.name t]
      else e.unknown_data_categories := by
  simp only [checkColumn]
  split_ifs <;> rfl

theorem checkColumn_etypes (t : String) (c : ColumnInFile) (e : ValidationErrors) :
    (checkColumn t c e).error_transformer_types =
      if c.transformer.name = TransformerType.Error then
        e.error_transformer_types ++ [create_simple_column c.name t]
      else e.error_transformer_types := by
  simp only [checkColumn]
  split_ifs <;> rfl

theorem checkColumn_dupcols (t : String) (c : ColumnInFile) (e : ValidationErrors) :
    (checkColumn t c e).duplicate_columns = e.duplicate_columns := by
  simp only [checkColumn]
  split_ifs <;> rfl

theorem checkColumn_duptables (t : String) (c : ColumnInFile) (e : ValidationErrors) :
    (checkColumn t c e).duplicate_tables = e.duplicate_tables := by
  simp only [checkColumn]
  split_ifs <;> rfl

theorem singleton_errors (t d : String) (fl : Bool) (c : ColumnInFile)
    (o : TransformerOverrides) :
    (from_strategies_in_file_impl [⟨t, d, fl, [c]⟩] o).2 =
      checkColumn t c ValidationErrors.new := rfl

/-- C2: a Pii or PotentialPii column is reported in the unanonymised-PII bucket
exactly when its resolved transformer (after applying overrides) is still
Identity and the column was not demoted to Identity by an explicit override;
a column demoted to Identity by allow_potential_pii or
allow_commercially_sensitive is never reported. -/
theorem C2_unanonymised_pii_reporting (t d : String) (fl : Bool)
    (o : TransformerOverrides) (c : ColumnInFile)
    (h : c.data_category = DataCategory.Pii ∨
      c.data_category = DataCategory.PotentialPii) :
    (create_simple_column c.name t ∈
        (from_strategies_in_file_impl [⟨t, d, fl, [c]⟩] o).2.unanonymised_pii ↔
      ((apply_transformer_overrides c.data_category o c.transformer).name =
          TransformerType.Identity ∧ ¬demotedToIdentityByOverride c o))
  ∧ (demotedToIdentityByOverride c o →
      create_simple_column c.name t ∉
        (from_strategies_in_file_impl [⟨t, d, fl, [c]⟩] o).2.unanonymised_pii) := by
  obtain ⟨dc, de, n, tn, ta⟩ := c
  obtain ⟨b₁, b₂, b₃⟩ := o
  rcases h with h | h <;> simp only at h <;> subst h <;>
    cases tn <;> cases b₁ <;> cases b₂ <;> cases b₃ <;>
      simp [singleton_errors, checkColumn_unanonymised, apply_transformer_overrides,
        demotedToIdentityByOverride, ValidationErrors.new, create_simple_column]

theorem C2_unanonymised_pii_reporting_witness :
    (create_simple_column "c" "t" ∈
        (from_strategies_in_file_impl
          [⟨"t", "d", false,
            [⟨DataCategory.Pii, "d", "c", ⟨TransformerType.Identity, none⟩⟩]⟩]
          ⟨false, false, false⟩).2.unanonymised_pii ↔
      ((apply_transformer_overrides DataCategory.Pii ⟨false, false, false⟩
          ⟨TransformerType.Identity, none⟩).name = TransformerType.Identity ∧
        ¬demotedToIdentityByOverride
          ⟨DataCategory.Pii, "d", "c", ⟨TransformerType.Identity, none⟩⟩
          ⟨false, false, false⟩))
  ∧ (demotedToIdentityByOverride
        ⟨DataCategory.Pii, "d", "c", ⟨TransformerType.Identity, none⟩⟩
        ⟨false, false, false⟩ →
      create_simple_column "c" "t" ∉
        (from_strategies_in_file_impl
          [⟨"t", "d", false,
            [⟨DataCategory.Pii, "d", "c", ⟨TransformerType.Identity, none⟩⟩]⟩]
          ⟨false, false, false⟩).2.unanonymised_pii) :=
  C2_unanonymised_pii_reporting "t" "d" false ⟨false, false, false⟩
    ⟨DataCategory.Pii, "d", "c", ⟨TransformerType.Identity, none⟩⟩ (Or.inl rfl)

/-- C3: compilation returns a Policy Set exactly when all five error buckets
accumulated over the whole input are empty, and otherwise returns the full
batch; on the document declaring table "t" twice (second empty) and table
"daps" with column "column1" declared twice, it reports duplicate tables ["t"]
and duplicate columns [("daps","column1")] with all other buckets empty. -/
theorem C3_batched_compilation :
    (∀ (input : List StrategyInFile) (o : TransformerOverrides),
      (from_strategies_in_file input o =
          Except.ok (from_strategies_in_file_impl input o).1 ∧
        (from_strategies_in_file_impl input o).2.unanonymised_pii = [] ∧
        (from_strategies_in_file_impl input o).2.unknown_data_categories = [] ∧
        (from_strategies_in_file_impl input o).2.error_transformer_types = [] ∧
        (from_strategies_in_file_impl input o).2.duplicate_columns = [] ∧
        (from_strategies_in_file_impl input o).2.duplicate_tables = []) ∨
      (from_strategies_in_file input o =
          Except.error (from_strategies_in_file_impl input o).2 ∧
        ¬((from_strategies_in_file_impl input o).2.unanonymised_pii = [] ∧
          (from_strategies_in_file_impl input o).2.unknown_data_categories = [] ∧
          (from_strategies_in_file_impl input o).2.error_transformer_types = [] ∧
          (from_strategies_in_file_impl input o).2.duplicate_columns = [] ∧
          (from_strategies_in_file_impl input o).2.duplicate_tables = [])))
  ∧ (from_strategies_in_file
      [⟨"t", "description", false, []⟩,
       ⟨"t", "description", false, []⟩,
       ⟨"daps", "description", false,
        [⟨DataCategory.Pii, "description", "column1", ⟨TransformerType.Scramble, none⟩⟩,
         ⟨DataCategory.Pii, "description", "column1", ⟨TransformerType.Scramble, none⟩⟩]⟩]
      ⟨false, false, false⟩ =
      Except.error ⟨[], [], [], [⟨"daps", "column1"⟩], ["t"]⟩) := by
  constructor
  · intro input o
    by_cases he :
        ValidationErrors.is_empty (from_strategies_in_file_impl input o).2 = true
    · left
      have h₅ := he
      simp only [ValidationErrors.is_empty, Bool.and_eq_true, List.isEmpty_iff] at h₅
      exact ⟨by simp [from_strategies_in_file, he],
        h₅.1.1.1.1, h₅.1.1.1.2, h₅.1.1.2, h₅.1.2, h₅.2⟩
    · right
      have h₅ := he
      simp only [ValidationErrors.is_empty, Bool.and_eq_true, List.isEmpty_iff] at h₅
      refine ⟨by simp [from_strategies_in_file, he], fun hc => ?_⟩
      exact h₅ ⟨⟨⟨⟨hc.1, hc.2.1⟩, hc.2.2.1⟩, hc.2.2.2.1⟩, hc.2.2.2.2⟩
  · rfl

/-- C4 counterexample: the compiler does not keep the first occurrence's entry.
Table "t" declares column "c" twice, first as (Pii, Scramble), then as
(General, Identity): the erroring compiled map holds the second occurrence's
entry, which differs from the first occurrence's entry, while the duplicate is
reported. -/
theorem C4_duplicate_counterexample :
    ((from_strategies_in_file_impl
        [⟨"t", "d", false,
          [⟨DataCategory.Pii, "d", "c", ⟨TransformerType.Scramble, none⟩⟩,
           ⟨DataCategory.General, "d", "c", ⟨TransformerType.Identity, none⟩⟩]⟩]
        ⟨false, false, false⟩).1.tables =
      [("t", TableStrategy.Columns
        [("c", ⟨DataCategory.General, "c", ⟨TransformerType.Identity, none⟩⟩)])])
  ∧ ((⟨DataCategory.General, "c", ⟨TransformerType.Identity, none⟩⟩ : ColumnInfo) ≠
      ⟨DataCategory.Pii, "c", ⟨TransformerType.Scramble, none⟩⟩)
  ∧ ((from_strategies_in_file_impl
        [⟨"t", "d", false,
          [⟨DataCategory.Pii, "d", "c", ⟨TransformerType.Scramble, none⟩⟩,
           ⟨DataCategory.General, "d", "c", ⟨TransformerType.Identity, none⟩⟩]⟩]
        ⟨false, false, false⟩).2.duplicate_columns = [⟨"t", "c"⟩]) := by
  exact ⟨rfl, by decide, rfl⟩

/-- C4 amended: on a second column of the same name within one table, or a
second table of the same name, the compiler keeps the last occurrence's entry
in the (erroring) compiled map (each later occurrence replaces the earlier one,
per Rust `HashMap::insert`) and reports the duplicate in the corresponding
error bucket. -/
theorem C4_duplicate_keeps_last (t d : String) (fl : Bool)
    (o : TransformerOverrides) (c₁ c₂ : ColumnInFile) (h : c₁.name = c₂.name) :
    ((from_strategies_in_file_impl [⟨t, d, fl, [c₁, c₂]⟩] o).1.tables =
      [(t, TableStrategy.Columns
        [(c₂.name, (⟨c₂.data_category, c₂.name, transformer c₂ o⟩ : ColumnInfo))])])
  ∧ ((from_strategies_in_file_impl [⟨t, d, fl, [c₁, c₂]⟩] o).2.duplicate_columns =
      [create_simple_column c₁.name t])
  ∧ ((from_strategies_in_file_impl
        [⟨"t", "d", false, [⟨DataCategory.General, "d", "a",
          ⟨TransformerType.Identity, none⟩⟩]⟩,
         ⟨"t", "d", false, []⟩] ⟨false, false, false⟩).1.tables =
      [("t", TableStrategy.Columns [])])
  ∧ ((from_strategies_in_file_impl
        [⟨"t", "d", false, [⟨DataCategory.General, "d", "a",
          ⟨TransformerType.Identity, none⟩⟩]⟩,
         ⟨"t", "d", false, []⟩] ⟨false, false, false⟩).2.duplicate_tables =
      ["t"]) := by
  obtain ⟨dc₁, de₁, n₁, tr₁⟩ := c₁
  obtain ⟨dc₂, de₂, n₂, tr₂⟩ := c₂
  simp only at h
  subst h
  refine ⟨?_, ?_, rfl, rfl⟩
  · simp [from_strategies_in_file_impl, processStrategy, processColumn,
      Strategies.insert, Strategies.new, hmInsert, transformer]
  · simp [from_strategies_in_file_impl, processStrategy, processColumn,
      Strategies.insert, Strategies.new, hmInsert, checkColumn_dupcols,
      ValidationErrors.new, create_simple_column]

theorem C4_duplicate_keeps_last_witness :
    ((from_strategies_in_file_impl
        [⟨"t", "d", false,
          [⟨DataCategory.Pii, "d", "c", ⟨TransformerType.Scramble, none⟩⟩,
           ⟨DataCategory.General, "d", "c", ⟨TransformerType.Identity, none⟩⟩]⟩]
        ⟨false, false, false⟩).1.tables =
      [("t", TableStrategy.Columns
        [("c", (⟨DataCategory.General, "c", transformer
            ⟨DataCategory.General, "d", "c", ⟨TransformerType.Identity, none⟩⟩
            ⟨false, false, false⟩⟩ : ColumnInfo))])]) :=
  (C4_duplicate_keeps_last "t" "d" false ⟨false, false, false⟩
    ⟨DataCategory.Pii, "d", "c", ⟨TransformerType.Scramble, none⟩⟩
    ⟨DataCategory.General, "d", "c", ⟨TransformerType.Identity, none⟩⟩ rfl).1

theorem apply_overrides_error (dc : DataCategory) (o : TransformerOverrides)
    (tr : Transformer) (h : (apply_transformer_overrides dc o tr).name = TransformerType.Error) :
    tr.name = TransformerType.Error := by
  unfold apply_transformer_overrides at h
  split_ifs at h
  simp_all

theorem processColumn_etypes (t : String) (o : TransformerOverrides)
    (acc : List (String × ColumnInfo) × ValidationErrors) (c : ColumnInFile) :
    (processColumn t o acc c).2.error_transformer_types =
      (checkColumn t c acc.2).error_transformer_types := by
  rcases hi : (hmInsert acc.1 c.name
      ⟨c.data_category, c.name, transformer c o⟩).2 with _ | d <;>
    simp [processColumn, hi]

theorem processColumn_map (t : String) (o : TransformerOverrides)
    (acc : List (String × ColumnInfo) × ValidationErrors) (c : ColumnInFile) :
    (processColumn t o acc c).1 =
      (hmInsert acc.1 c.name ⟨c.data_category, c.name, transformer c o⟩).1 := by
  rcases hi : (hmInsert acc.1 c.name
      ⟨c.data_category, c.name, transformer c o⟩).2 with _ | d <;>
    simp [processColumn, hi]

theorem checkColumn_etypes_ne (t : String) (c : ColumnInFile) (e : ValidationErrors)
    (h : e.error_transformer_types ≠ []) :
    (checkColumn t c e).error_transformer_types ≠ [] := by
  rw [checkColumn_etypes]
  split_ifs <;> simp [h]

theorem processColumn_inv (t : String) (o : TransformerOverrides)
    (acc : List (String × ColumnInfo) × ValidationErrors) (c : ColumnInFile)
    (hinv : ∀ p ∈ acc.1, (ColumnInfo.transformer p.2).name = TransformerType.Error →
      acc.2.error_transformer_types ≠ []) :
    ∀ p ∈ (processColumn t o acc c).1,
      (ColumnInfo.transformer p.2).name = TransformerType.Error →
      (processColumn t o acc c).2.error_transformer_types ≠ [] := by
  intro p hp herr
  rw [processColumn_etypes]
  rw [processColumn_map] at hp
  rcases mem_hmInsert _ _ _ _ hp with hm | hm
  · exact checkColumn_etypes_ne _ _ _ (hinv p hm herr)
  · subst hm
    have hc : c.transformer.name = TransformerType.Error :=
      apply_overrides_error c.data_category o c.transformer herr
    rw [checkColumn_etypes, if_pos hc]
    simp

theorem colsFold_etypes_ne (t : String) (o : TransformerOverrides)
    (cols : List ColumnInFile) :
    ∀ (acc : List (String × ColumnInfo) × ValidationErrors),
      acc.2.error_transformer_types ≠ [] →
      (cols.foldl (processColumn t o) acc).2.error_transformer_types ≠ [] := by
  induction cols with
  | nil => intro acc h; exact h
  | cons c cs ih =>
    intro acc h
    rw [List.foldl_cons]
    refine ih _ ?_
    rw [processColumn_etypes]
    exact checkColumn_etypes_ne _ _ _ h

theorem colsFold_inv (t : String) (o : TransformerOverrides)
    (cols : List ColumnInFile) :
    ∀ (acc : List (String × ColumnInfo) × ValidationErrors),
      (∀ p ∈ acc.1, (ColumnInfo.transformer p.2).name = TransformerType.Error →
        acc.2.error_transformer_types ≠ []) →
      ∀ p ∈ (cols.foldl (processColumn t o) acc).1,
        (ColumnInfo.transformer p.2).name = TransformerType.Error →
        (cols.foldl (processColumn t o) acc).2.error_transformer_types ≠ [] := by
  induction cols with
  | nil => intro acc h; exact h
  | cons c cs ih =>
    intro acc h
    rw [List.foldl_cons]
    exact ih _ (processColumn_inv t o acc c h)

theorem processStrategy_tables (o : TransformerOverrides)
    (acc : Strategies × ValidationErrors) (st : StrategyInFile) :
    (processStrategy o acc st).1.tables =
      (hmInsert acc.1.tables st.table_name (TableStrategy.Columns
        (st.columns.foldl (processColumn st.table_name o) ([], acc.2)).1)).1 := by
  rcases hi : (hmInsert acc.1.tables st.table_name (TableStrategy.Columns
      (st.columns.foldl (processColumn st.table_name o) ([], acc.2)).1)).2 with _ | ts <;>
    simp [processStrategy, Strategies.insert, hi]

theorem processStrategy_etypes (o : TransformerOverrides)
    (acc : Strategies × ValidationErrors) (st : StrategyInFile) :
    (processStrategy o acc st).2.error_transformer_types =
      (st.columns.foldl (processColumn st.table_name o)
        ([], acc.2)).2.error_transformer_types := by
  rcases hi : (hmInsert acc.1.tables st.table_name (TableStrategy.Columns
      (st.columns.foldl (processColumn st.table_name o) ([], acc.2)).1)).2 with _ | ts <;>
    simp [processStrategy, Strategies.insert, hi]

theorem processStrategy_inv (o : TransformerOverrides)
    (acc : Strategies × ValidationErrors) (st : StrategyInFile)
    (hinv : ∀ q ∈ acc.1.tables, ∀ cols, q.2 = TableStrategy.Columns cols →
      ∀ p ∈ cols, (ColumnInfo.transformer p.2).name = TransformerType.Error →
      acc.2.error_transformer_types ≠ []) :
    ∀ q ∈ (processStrategy o acc st).1.tables, ∀ cols,
      q.2 = TableStrategy.Columns cols →
      ∀ p ∈ cols, (ColumnInfo.transformer p.2).name = TransformerType.Error →
      (processStrategy o acc st).2.error_transformer_types ≠ [] := by
  intro q hq cols hcols p hp herr
  rw [processStrategy_etypes]
  rw [processStrategy_tables] at hq
  rcases mem_hmInsert _ _ _ _ hq with hm | hm
  · exact colsFold_etypes_ne _ _ _ _ (hinv q hm cols hcols p hp herr)
  · have hcols₂ : (st.columns.foldl (processColumn st.table_name o) ([], acc.2)).1 = cols := by
      have := congrArg Prod.snd hm
      simp only at this
      rw [this] at hcols
      exact (TableStrategy.Columns.injEq _ _).mp hcols.symm |>.symm
    rw [← hcols₂] at hp
    refine colsFold_inv st.table_name o st.columns ([], acc.2) ?_ p hp herr
    intro p₀ hp₀
    simp at hp₀

theorem stratFold_inv (o : TransformerOverrides) (input : List StrategyInFile) :
    ∀ (acc : Strategies × ValidationErrors),
      (∀ q ∈ acc.1.tables, ∀ cols, q.2 = TableStrategy.Columns cols →
        ∀ p ∈ cols, (ColumnInfo.transformer p.2).name = TransformerType.Error →
        acc.2.error_transformer_types ≠ []) →
      ∀ q ∈ (input.foldl (processStrategy o) acc).1.tables, ∀ cols,
        q.2 = TableStrategy.Columns cols →
        ∀ p ∈ cols, (ColumnInfo.transformer p.2).name = TransformerType.Error →
        (input.foldl (processStrategy o) acc).2.error_transformer_types ≠ [] := by
  induction input with
  | nil => intro acc h; exact h
  | cons st sts ih =>
    intro acc h
    rw [List.foldl_cons]
    exact ih _ (processStrategy_inv o acc st h)

theorem ok_eq_impl (input : List StrategyInFile) (o : TransformerOverrides)
    (s : Strategies) (hok : from_strategies_in_file input o = Except.ok s) :
    s = (from_strategies_in_file_impl input o).1 ∧
      ValidationErrors.is_empty (from_strategies_in_file_impl input o).2 = true := by
  simp only [from_strategies_in_file] at hok
  split at hok
  · exact ⟨(Except.ok.injEq _ _).mp hok |>.symm, by assumption⟩
  · exact Except.noConfusion hok

/-- C5: for every input on which compilation succeeds, no column of the
resulting Policy Set carries the Error transformer kind. -/
theorem C5_no_error_in_policy (input : List StrategyInFile)
    (o : TransformerOverrides) (s : Strategies)
    (hok : from_strategies_in_file input o = Except.ok s) :
    ∀ q ∈ s.tables, ∀ cols, q.2 = TableStrategy.Columns cols →
      ∀ p ∈ cols, (ColumnInfo.transformer p.2).name ≠ TransformerType.Error := by
  obtain ⟨hs, he⟩ := ok_eq_impl input o s hok
  have hempty : (from_strategies_in_file_impl input o).2.error_transformer_types = [] := by
    simp only [ValidationErrors.is_empty, Bool.and_eq_true, List.isEmpty_iff] at he
    exact he.1.1.2
  intro q hq cols hcols p hp herr
  have hinv := stratFold_inv o input (Strategies.new, ValidationErrors.new)
    (by intro q₀ hq₀; simp [Strategies.new] at hq₀)
  rw [hs] at hq
  exact hinv q hq cols hcols p hp herr hempty

theorem C5_no_error_in_policy_witness :
    (ColumnInfo.transformer
      ⟨DataCategory.General, "c", ⟨TransformerType.Scramble, none⟩⟩).name ≠
      TransformerType.Error :=
  C5_no_error_in_policy
    [⟨"t", "d", false, [⟨DataCategory.General, "d", "c",
      ⟨TransformerType.Scramble, none⟩⟩]⟩]
    ⟨false, false, false⟩
    ⟨[("t", TableStrategy.Columns
      [("c", ⟨DataCategory.General, "c", ⟨TransformerType.Scramble, none⟩⟩)])]⟩
    rfl
    ("t", TableStrategy.Columns
      [("c", ⟨DataCategory.General, "c", ⟨TransformerType.Scramble, none⟩⟩)])
    (List.mem_singleton.mpr rfl)
    [("c", ⟨DataCategory.General, "c", ⟨TransformerType.Scramble, none⟩⟩)]
    rfl
    ("c", ⟨DataCategory.General, "c", ⟨TransformerType.Scramble, none⟩⟩)
    (List.mem_singleton.mpr rfl)

theorem stratFold_columns (o : TransformerOverrides) (input : List StrategyInFile) :
    ∀ (acc : Strategies × ValidationErrors),
      (∀ q ∈ acc.1.tables, ∃ cols, q.2 = TableStrategy.Columns cols) →
      ∀ q ∈ (input.foldl (processStrategy o) acc).1.tables,
        ∃ cols, q.2 = TableStrategy.Columns cols := by
  induction input with
  | nil => intro acc h; exact h
  | cons st sts ih =>
    intro acc h
    rw [List.foldl_cons]
    refine ih _ ?_
    intro q hq
    rw [processStrategy_tables] at hq
    rcases mem_hmInsert _ _ _ _ hq with hm | hm
    · exact h q hm
    · exact ⟨_, by rw [hm]⟩

/-- C10: every table of a compiled Policy Set is bound to a Columns strategy:
the accumulation phase of the compiler never places a Truncate (drop-all-rows)
strategy in the map regardless of the raw entry's truncate flag, the insert
operation only ever adds Columns strategies, and hence every successfully
compiled Policy Set is Truncate-free. -/
theorem C10_policy_always_columns :
    (∀ (input : List StrategyInFile) (o : TransformerOverrides)
        (q : String × TableStrategy),
      q ∈ (from_strategies_in_file_impl input o).1.tables →
      ∃ cols, q.2 = TableStrategy.Columns cols)
  ∧ (∀ (s : Strategies) (tn : String) (cs : List (String × ColumnInfo))
        (q : String × TableStrategy),
      q ∈ (s.insert tn cs).1.tables →
      q ∈ s.tables ∨ q.2 = TableStrategy.Columns cs)
  ∧ (∀ (input : List StrategyInFile) (o : TransformerOverrides) (s : Strategies),
      from_strategies_in_file input o = Except.ok s →
      ∀ q ∈ s.tables, ∃ cols, q.2 = TableStrategy.Columns cols) := by
  have himpl : ∀ (input : List StrategyInFile) (o : TransformerOverrides)
      (q : String × TableStrategy),
      q ∈ (from_strategies_in_file_impl input o).1.tables →
      ∃ cols, q.2 = TableStrategy.Columns cols := by
    intro input o q hq
    exact stratFold_columns o input (Strategies.new, ValidationErrors.new)
      (by intro q₀ hq₀; simp [Strategies.new] at hq₀) q hq
  refine ⟨himpl, ?_, ?_⟩
  · intro s tn cs q hq
    rcases mem_hmInsert _ _ _ _ hq with hm | hm
    · exact Or.inl hm
    · exact Or.inr (by rw [hm])
  · intro input o s hok q hq
    obtain ⟨hs, _⟩ := ok_eq_impl input o s hok
    rw [hs] at hq
    exact himpl input o q hq

theorem C10_policy_always_columns_witness :
    ∃ cols, (("t", TableStrategy.Columns
      [("c", (⟨DataCategory.General, "c", ⟨TransformerType.Scramble, none⟩⟩ : ColumnInfo))])
        : String × TableStrategy).2 = TableStrategy.Columns cols :=
  C10_policy_always_columns.1
    [⟨"t", "d", true, [⟨DataCategory.General, "d", "c",
      ⟨TransformerType.Scramble, none⟩⟩]⟩]
    ⟨false, false, false⟩
    ("t", TableStrategy.Columns
      [("c", ⟨DataCategory.General, "c", ⟨TransformerType.Scramble, none⟩⟩)])
    (List.mem_singleton.mpr rfl)

theorem validate_eq (s : Strategies) (db : List SimpleColumn) :
    validate_against_db s db =
      if (db.dedup.filter fun x => decide (x ∉ columns_from_strategy_file s)) = [] ∧
          ((columns_from_strategy_file s).filter fun x => decide (x ∉ db.dedup)) = [] then
        Except.ok ()
      else
        Except.error
          ⟨List.insertionSort scLE
            (db.dedup.filter fun x => decide (x ∉ columns_from_strategy_file s)),
          List.insertionSort scLE
            ((columns_from_strategy_file s).filter fun x => decide (x ∉ db.dedup))⟩ := by
  by_cases h₁ :
      (db.dedup.filter fun x => decide (x ∉ columns_from_strategy_file s)) = [] <;>
    by_cases h₂ :
      ((columns_from_strategy_file s).filter fun x => decide (x ∉ db.dedup)) = [] <;>
      simp [validate_against_db, DbErrors.is_empty, List.isEmpty_iff, h₁, h₂]

theorem filters_nil_iff (s : Strategies) (db : List SimpleColumn) :
    ((db.dedup.filter fun x => decide (x ∉ columns_from_strategy_file s)) = [] ∧
      ((columns_from_strategy_file s).filter fun x => decide (x ∉ db.dedup)) = []) ↔
    (∀ x, x ∈ db ↔ x ∈ columns_from_strategy_file s) := by
  rw [List.filter_eq_nil_iff, List.filter_eq_nil_iff]
  constructor
  · rintro ⟨h₁, h₂⟩ x
    constructor
    · intro hx
      have := h₁ x (List.mem_dedup.mpr hx)
      simpa using this
    · intro hx
      have := h₂ x hx
      simp at this
      exact this
  · intro h
    constructor
    · intro x hx
      simp
      exact (h x).mp (List.mem_dedup.mp hx)
    · intro x hx
      simp
      exact (h x).mpr hx

theorem mem_columns_from_strategy_file (s : Strategies) (x : SimpleColumn) :
    x ∈ columns_from_strategy_file s ↔
      ∃ cols, (x.table_name, TableStrategy.Columns cols) ∈ s.tables ∧
        ∃ ci, (x.column_name, ci) ∈ cols := by
  unfold columns_from_strategy_file
  rw [List.mem_dedup, List.mem_flatMap]
  constructor
  · rintro ⟨p, hp, hx⟩
    rw [List.mem_filter] at hp
    obtain ⟨hmem, hcol⟩ := hp
    obtain ⟨pt, pts⟩ := p
    cases pts with
    | Columns cols =>
      rw [List.mem_map] at hx
      obtain ⟨cp, hcp, hxeq⟩ := hx
      subst hxeq
      exact ⟨cols, hmem, cp.2, hcp⟩
    | Truncate => simp [isColumnsStrategy] at hcol
  · rintro ⟨cols, hmem, ci, hci⟩
    refine ⟨(x.table_name, TableStrategy.Columns cols), ?_, ?_⟩
    · rw [List.mem_filter]
      exact ⟨hmem, rfl⟩
    · exact List.mem_map.mpr ⟨(x.column_name, ci), hci, rfl⟩

/-- C6: schema cross-validation counts only the columns of column-bearing
(non drop-all-rows) tables, computes missing_from_strategy_file as the sorted
set difference of the live columns minus the policy columns and missing_from_db
as the sorted set difference of the policy columns minus the live columns, and
succeeds exactly when both differences are empty. -/
theorem C6_schema_cross_validation (s : Strategies) (db : List SimpleColumn) :
    (validate_against_db s db = Except.ok () ↔
      (∀ x, x ∈ db ↔ x ∈ columns_from_strategy_file s))
  ∧ (∀ e, validate_against_db s db = Except.error e →
      (List.Sorted scLE e.missing_from_strategy_file ∧
        e.missing_from_strategy_file.Nodup ∧
        (∀ x, x ∈ e.missing_from_strategy_file ↔
          (x ∈ db ∧ x ∉ columns_from_strategy_file s)) ∧
        List.Sorted scLE e.missing_from_db ∧
        e.missing_from_db.Nodup ∧
        (∀ x, x ∈ e.missing_from_db ↔
          (x ∈ columns_from_strategy_file s ∧ x ∉ db))))
  ∧ (∀ x, x ∈ columns_from_strategy_file s ↔
      ∃ cols, (x.table_name, TableStrategy.Columns cols) ∈ s.tables ∧
        ∃ ci, (x.column_name, ci) ∈ cols) := by
  refine ⟨?_, ?_, mem_columns_from_strategy_file s⟩
  · rw [validate_eq]
    split_ifs with h
    · simp only [true_iff]
      exact (filters_nil_iff s db).mp h
    · constructor
      · intro hv
        exact hv.elim
      · intro hiff
        exact absurd ((filters_nil_iff s db).mpr hiff) h
  · intro e hv
    rw [validate_eq] at hv
    split_ifs at hv with h
    have he := (Except.error.injEq _ _).mp hv
    subst he
    refine ⟨List.sorted_insertionSort scLE _, ?_, ?_,
      List.sorted_insertionSort scLE _, ?_, ?_⟩
    · exact ((List.perm_insertionSort scLE _).nodup_iff).mpr
        ((db.nodup_dedup).filter _)
    · intro x
      rw [List.mem_insertionSort, List.mem_filter, List.mem_dedup]
      simp
    · exact ((List.perm_insertionSort scLE _).nodup_iff).mpr
        ((List.nodup_dedup _).filter _)
    · intro x
      rw [List.mem_insertionSort, List.mem_filter]
      simp [List.mem_dedup]

theorem C6_schema_cross_validation_witness :
    List.Sorted scLE (DbErrors.missing_from_db
      ⟨[(⟨"c", "z"⟩ : SimpleColumn)], [⟨"a", "x"⟩]⟩) :=
  ((C6_schema_cross_validation
      ⟨[("a", TableStrategy.Columns
          [("x", ⟨DataCategory.General, "x", ⟨TransformerType.Scramble, none⟩⟩)]),
        ("tr", TableStrategy.Truncate)]⟩
      [⟨"c", "z"⟩]).2.1
    ⟨[⟨"c", "z"⟩], [⟨"a", "x"⟩]⟩ rfl).2.2.2.1

theorem C3_batched_compilation_witness :
    (from_strategies_in_file [] ⟨false, false, false⟩ =
        Except.ok (from_strategies_in_file_impl [] ⟨false, false, false⟩).1 ∧
      (from_strategies_in_file_impl [] ⟨false, false, false⟩).2.unanonymised_pii = [] ∧
      (from_strategies_in_file_impl [] ⟨false, false, false⟩).2.unknown_data_categories = [] ∧
      (from_strategies_in_file_impl [] ⟨false, false, false⟩).2.error_transformer_types = [] ∧
      (from_strategies_in_file_impl [] ⟨false, false, false⟩).2.duplicate_columns = [] ∧
      (from_strategies_in_file_impl [] ⟨false, false, false⟩).2.duplicate_tables = []) ∨
    (from_strategies_in_file [] ⟨false, false, false⟩ =
        Except.error (from_strategies_in_file_impl [] ⟨false, false, false⟩).2 ∧
      ¬((from_strategies_in_file_impl [] ⟨false, false, false⟩).2.unanonymised_pii = [] ∧
        (from_strategies_in_file_impl [] ⟨false, false, false⟩).2.unknown_data_categories = [] ∧
        (from_strategies_in_file_impl [] ⟨false, false, false⟩).2.error_transformer_types = [] ∧
        (from_strategies_in_file_impl [] ⟨false, false, false⟩).2.duplicate_columns = [] ∧
        (from_strategies_in_file_impl [] ⟨false, false, false⟩).2.duplicate_tables = [])) :=
  C3_batched_compilation.1 [] ⟨false, false, false⟩
